import Mathlib

/-!
Verification of the media-convert batch orchestrator (three Python variants:
`media_convert_2.py`, `media_convert_3.py`, `media_convert_4.py`).

Modelling conventions (shallow embedding):
* Python strings are Lean `String`s; `str.endswith`, `str.startswith` and the
  `in` substring test are modelled on the underlying character lists with the
  suffix / prefix / infix relations.
* File sizes, timestamps and process exit codes are modelled as `Int`
  (the code only compares them and adds constants; no float rounding or
  machine-width overflow is involved at the magnitudes used).
* The SQLite table `files` is modelled as an association list of rows, and a
  directory tree as an association list from paths to file data.
* External processes (ffmpeg, ffprobe, ssh) are oracles: their exit codes and
  captured output are universally quantified inputs of the modelled control
  flow.
-/

/-- Python `s.endswith(p)`: `p` is a suffix of `s`. -/
def pyEndswith (s p : String) : Bool := decide (p.toList <:+ s.toList)

/-- Python `s.startswith(p)`: `p` is a prefix of `s`. -/
def pyStartswith (s p : String) : Bool := decide (p.toList <+: s.toList)

/-- Python `p in s` on strings: `p` is a contiguous substring of `s`. -/
def pyContains (s p : String) : Bool := decide (p.toList <:+: s.toList)

/-!
## Tracking Store (`media_convert_4.py`, `db_lookup` / `db_upsert` / `main`)

One row of the SQLite `files` table, as selected by
`SELECT path, size, mtime, sha256, last_checked, status, note`.
-/

/-- A row of the `files` table of `media_convert_4.py` (schema in `db_connect`). -/
structure DbRow where
  path : String
  size : Int
  mtime : Int
  sha256 : Option String
  last_checked : Int
  status : String
  note : Option String
deriving DecidableEq

/-- The `SELECT ... WHERE path=?` of `db_lookup`: the row stored for `path`
(`path` is the primary key, so at most one row; the table is modelled as an
association list searched from the front). -/
def dbFind (db : List DbRow) (p : String) : Option DbRow :=
  db.find? (fun r => r.path == p)

/-- `db_lookup` of `media_convert_4.py` (lines 173-179):
`return row if row and row[1] == size and row[2] == mtime and row[5] == 'ok'
else None`. -/
def db_lookup (db : List DbRow) (p : String) (size mtime : Int) : Option DbRow :=
  match dbFind db p with
  | some row => if row.size = size ∧ row.mtime = mtime ∧ row.status = "ok" then some row else none
  | none => none

/-- The per-file DB short-circuit of `main` (lines 316-321): the file is
skipped exactly when `db_lookup` returned a row; otherwise it proceeds to
re-classification and encoding. -/
def skipsFile (db : List DbRow) (p : String) (size mtime : Int) : Bool :=
  (db_lookup db p size mtime).isSome

/-!
## Exit-status classification (`media_convert_3.py`, lines 360-363 / 393-395)

After each encoder invocation the script runs
`if retval < -1 or retval > 10: sys.exit(1)`; `retval == 0` is the success
branch and every other in-range value falls through to the next file.
-/

/-- Classification of one encoder exit status in `media_convert_3.py`:
`0` is success, a value with `retval < -1 or retval > 10` calls
`sys.exit(1)` (fatal, aborts the run), anything else falls through to the
next file (per-file failure). -/
inductive ExitClass where
  | success
  | perFile
  | fatal
deriving DecidableEq

/-- Exit-status classification as written in `media_convert_3.py`. -/
def classify_exit (retval : Int) : ExitClass :=
  if retval = 0 then ExitClass.success
  else if retval < -1 ∨ retval > 10 then ExitClass.fatal
  else ExitClass.perFile

/-- The encode loop of `media_convert_3.py` restricted to its exit-status
control flow: given the queued files' encoder exit codes in order, returns
the exit codes actually consumed and whether the run was aborted by
`sys.exit(1)`.  A fatal code stops the loop; every other code lets the loop
continue with the next file. -/
def runLoop : List Int → List Int × Bool
  | [] => ([], false)
  | r :: rest =>
    if r < -1 ∨ r > 10 then ([r], true)
    else
      let q := runLoop rest
      (r :: q.1, q.2)

theorem runLoop_cons_fatal (r : Int) (rest : List Int) (h : r < -1 ∨ r > 10) :
    runLoop (r :: rest) = ([r], true) := by
  simp [runLoop, h]

theorem runLoop_cons_ok (r : Int) (rest : List Int) (h1 : -1 ≤ r) (h2 : r ≤ 10) :
    runLoop (r :: rest) = (r :: (runLoop rest).1, (runLoop rest).2) := by
  have : ¬(r < -1 ∨ r > 10) := by omega
  simp [runLoop, this]

/-- C1: the tracking-store lookup returns the stored record iff a record for
the path exists with the given size, the given mtime and status `ok`; in
every other case it returns absent and the orchestrator does not skip the
file (it is re-processed). -/
theorem C1_db_lookup_skip (db : List DbRow) (p : String) (s m : Int) :
    (∀ r : DbRow, db_lookup db p s m = some r ↔
      (dbFind db p = some r ∧ r.size = s ∧ r.mtime = m ∧ r.status = "ok")) ∧
    (skipsFile db p s m = true ↔
      ∃ r : DbRow, dbFind db p = some r ∧ r.size = s ∧ r.mtime = m ∧ r.status = "ok") := by
  constructor
  · intro r
    constructor
    · intro h
      unfold db_lookup at h
      cases hf : dbFind db p with
      | none => rw [hf] at h; exact absurd h (by simp)
      | some row =>
        rw [hf] at h
        by_cases hc : row.size = s ∧ row.mtime = m ∧ row.status = "ok"
        · simp [hc] at h; subst h; exact ⟨rfl, hc⟩
        · simp [hc] at h
    · rintro ⟨hf, h1, h2, h3⟩
      unfold db_lookup
      rw [hf]
      simp [h1, h2, h3]
  · constructor
    · intro h
      unfold skipsFile at h
      cases hl : db_lookup db p s m with
      | none => rw [hl] at h; simp at h
      | some r =>
        refine ⟨r, ?_⟩
        unfold db_lookup at hl
        cases hf : dbFind db p with
        | none => rw [hf] at hl; exact absurd hl (by simp)
        | some row =>
          rw [hf] at hl
          by_cases hc : row.size = s ∧ row.mtime = m ∧ row.status = "ok"
          · simp [hc] at hl; subst hl; exact ⟨rfl, hc⟩
          · simp [hc] at hl
    · rintro ⟨r, hf, h1, h2, h3⟩
      unfold skipsFile db_lookup
      rw [hf]
      simp [h1, h2, h3]

/-- Witness for C1 at a concrete store: a matching `ok` row is returned and
skipped; flipping the mtime or the status makes the lookup absent. -/
theorem C1_db_lookup_skip_witness :
    (db_lookup [⟨"/m/a.mkv", 7, 100, none, 5, "ok", none⟩] "/m/a.mkv" 7 100 =
      some ⟨"/m/a.mkv", 7, 100, none, 5, "ok", none⟩) ∧
    skipsFile [⟨"/m/a.mkv", 7, 100, none, 5, "ok", none⟩] "/m/a.mkv" 7 100 = true ∧
    skipsFile [⟨"/m/a.mkv", 7, 100, none, 5, "ok", none⟩] "/m/a.mkv" 7 101 = false ∧
    skipsFile [⟨"/m/a.mkv", 7, 100, none, 5, "error", none⟩] "/m/a.mkv" 7 100 = false := by
  refine ⟨?_, ?_, ?_, ?_⟩
  · exact ((C1_db_lookup_skip [⟨"/m/a.mkv", 7, 100, none, 5, "ok", none⟩] "/m/a.mkv" 7 100).1
      ⟨"/m/a.mkv", 7, 100, none, 5, "ok", none⟩).2 ⟨by decide, by decide, by decide, by decide⟩
  · decide
  · decide
  · decide

/-- C2 counterexample: an encoder exit code of `-1` does NOT abort the run in
`media_convert_3.py` — the guard is `retval < -1 or retval > 10`, so `-1`
is inside the non-fatal range, the file is a per-file failure and the
remaining queued file (exit code `7` here) is still processed. -/
theorem C2_minus_one_not_fatal :
    classify_exit (-1) = ExitClass.perFile ∧
    runLoop [-1, 7] = ([-1, 7], false) ∧
    classify_exit (-1) ≠ ExitClass.fatal := by
  refine ⟨by decide, by decide, by decide⟩

/-- C2 (amended): the inclusive non-fatal range of encoder exit codes is
`[-1, 10]`.  A code outside it (`retval < -1 or retval > 10`) aborts the run
without processing the remaining queued files; every code inside it — in
particular `-1` and `1` — is a per-file outcome after which the loop
continues with the next queued file; `0` alone is success. -/
theorem C2_exit_code_range (r : Int) (rest : List Int) :
    classify_exit (-1) = ExitClass.perFile ∧
    classify_exit 1 = ExitClass.perFile ∧
    classify_exit 0 = ExitClass.success ∧
    (r < -1 ∨ r > 10 → runLoop (r :: rest) = ([r], true)) ∧
    (-1 ≤ r → r ≤ 10 → runLoop (r :: rest) = (r :: (runLoop rest).1, (runLoop rest).2)) := by
  refine ⟨by decide, by decide, by decide, ?_, ?_⟩
  · intro h; exact runLoop_cons_fatal r rest h
  · intro h1 h2; exact runLoop_cons_ok r rest h1 h2

/-- Witness for C2's amended statement: code `-1` continues with the queue,
code `11` aborts dropping the queue. -/
theorem C2_exit_code_range_witness :
    ((-1 : Int) ≤ -1 ∧ (-1 : Int) ≤ 10 ∧ ((11 : Int) < -1 ∨ (11 : Int) > 10)) ∧
    runLoop [-1, 4] = (-1 :: (runLoop [4]).1, (runLoop [4]).2) ∧
    runLoop [11, 4] = ([11], true) := by
  refine ⟨⟨by decide, by decide, by decide⟩, ?_, ?_⟩
  · exact (C2_exit_code_range (-1) [4]).2.2.2.2 (by decide) (by decide)
  · exact (C2_exit_code_range 11 [4]).2.2.2.1 (by decide)

/-!
## Track Classifier (`media_convert_2.py` lines 196-212, identical logic in
`media_convert_3.py` lines 270-290)

The per-file loop starts from `video_cmd = ' -c:v copy'` and
`audio_cmd = ' -c:a copy'` and walks the tracks returned by
`MediaInfo.parse`, switching a command to its encode variant when a track is
non-compliant.  The two variants differ only in the numeric policy
constants, so the classifier is parametrised by a policy record.
-/

/-- The module-level policy constants of the classifying variants. -/
structure Policy where
  max_bitrate : Int
  max_height : Int
  max_width : Int
  video_codec : String
  video_profile : String
  max_channels : Int
  audio_codec : String

/-- Policy constants of `media_convert_2.py` (lines 55-65). -/
def mc2Policy : Policy :=
  ⟨5000000, 1080, 1920, "AVC", "Main", 2, "AAC"⟩

/-- One MediaInfo track as read by the classifier.  `bit_rate` is `Option`
because `pymediainfo` reports `None` for an unknown bitrate; Python's
`not track.bit_rate` is also true for a reported bitrate of `0`. -/
structure Track where
  track_type : String
  format : String
  format_profile : String
  bit_rate : Option Int
  width : Int
  height : Int
  channel_s : Int
deriving DecidableEq

/-- Python truthiness of the optional `bit_rate` field (`None` and `0` are
falsy). -/
def pyTruthyInt : Option Int → Bool
  | none => false
  | some n => n != 0

/-- The file-level action derived for a stream kind: keep the stream
(`-c copy`) or re-encode it. -/
inductive StreamAction where
  | copy
  | encode
deriving DecidableEq

/-- The video-track condition chain of `media_convert_2.py` lines 203-209:
`if not track.bit_rate: encode`
`elif not format.startswith(CODEC) or bit_rate > MAX or height > MAX or width > MAX: encode`
`elif format.startswith(CODEC) and not format_profile.startswith(PROFILE): encode`. -/
def videoNeedsEncode (P : Policy) (t : Track) : Bool :=
  if pyTruthyInt t.bit_rate = false then true
  else if (!pyStartswith t.format P.video_codec) || (t.bit_rate.getD 0 > P.max_bitrate)
      || (t.height > P.max_height) || (t.width > P.max_width) then true
  else if pyStartswith t.format P.video_codec
      && !pyStartswith t.format_profile P.video_profile then true
  else false

/-- The audio-track condition of line 211:
`if track.channel_s > MAX_CHANNELS or not track.format.startswith(AUDIO_CODEC)`. -/
def audioNeedsEncode (P : Policy) (t : Track) : Bool :=
  (t.channel_s > P.max_channels) || !pyStartswith t.format P.audio_codec

/-- One iteration of the track loop, acting on the
`(video action, audio action)` accumulator.  `Text` tracks only trigger the
side subtitle extraction and never touch the two actions. -/
def classifyStep (P : Policy) (acc : StreamAction × StreamAction) (t : Track) :
    StreamAction × StreamAction :=
  if t.track_type = "Video" then
    if videoNeedsEncode P t then (StreamAction.encode, acc.2) else acc
  else if t.track_type = "Audio" then
    if audioNeedsEncode P t then (acc.1, StreamAction.encode) else acc
  else acc

/-- The whole track loop: fold over the parsed tracks starting from the
`copy`/`copy` defaults. -/
def classify (P : Policy) (tracks : List Track) : StreamAction × StreamAction :=
  tracks.foldl (classifyStep P) (StreamAction.copy, StreamAction.copy)

/-- The per-file action derivation including the `MediaInfo.can_parse()`
guard (line 201): when the inspection tool cannot parse, the track loop is
skipped entirely and the initial `copy`/`copy` commands stand. -/
def deriveActions (P : Policy) (canParse : Bool) (tracks : List Track) :
    StreamAction × StreamAction :=
  if canParse then classify P tracks else (StreamAction.copy, StreamAction.copy)

/-- The conversion loop of `media_convert_2.py` runs one ffmpeg invocation
for every scanned candidate, whatever its classification; each candidate is
`(path, parseable?, tracks)` and yields `(path, actions)`. -/
def mc2Invocations (P : Policy) (files : List (String × Bool × List Track)) :
    List (String × (StreamAction × StreamAction)) :=
  files.map (fun f => (f.1, deriveActions P f.2.1 f.2.2))

/-- Once the video action has been switched to `encode`, no later track can
switch it back. -/
theorem classify_foldl_video_encode (P : Policy) (ts : List Track)
    (acc : StreamAction × StreamAction) (h : acc.1 = StreamAction.encode) :
    (ts.foldl (classifyStep P) acc).1 = StreamAction.encode := by
  induction ts generalizing acc with
  | nil => simpa using h
  | cons t ts ih =>
    rw [List.foldl_cons]
    apply ih
    unfold classifyStep
    by_cases hv : t.track_type = "Video"
    · by_cases he : videoNeedsEncode P t
      · simp [hv, he]
      · simp [hv, he, h]
    · by_cases ha : t.track_type = "Audio"
      · by_cases he : audioNeedsEncode P t
        · simp [hv, ha, he, h]
        · simp [hv, ha, he, h]
      · simp [hv, ha, h]

/-- A step on a compliant track leaves the accumulator unchanged. -/
theorem classifyStep_compliant (P : Policy) (acc : StreamAction × StreamAction) (t : Track)
    (hv : t.track_type = "Video" → videoNeedsEncode P t = false)
    (ha : t.track_type = "Audio" → audioNeedsEncode P t = false) :
    classifyStep P acc t = acc := by
  unfold classifyStep
  by_cases h1 : t.track_type = "Video"
  · simp [h1, hv h1]
  · by_cases h2 : t.track_type = "Audio"
    · simp [h1, h2, ha h2]
    · simp [h1, h2]

/-- A non-compliant video track anywhere in the remaining track list forces
the first component of the fold to `encode`, whatever the accumulator. -/
theorem classify_foldl_bad_video (P : Policy) (ts : List Track) :
    ∀ acc : StreamAction × StreamAction,
      (∃ t ∈ ts, t.track_type = "Video" ∧ videoNeedsEncode P t = true) →
      (ts.foldl (classifyStep P) acc).1 = StreamAction.encode := by
  induction ts with
  | nil => rintro acc ⟨t, ht, -, -⟩; exact absurd ht (List.not_mem_nil t)
  | cons u us ih =>
    rintro acc ⟨t, ht, hv, he⟩
    rw [List.foldl_cons]
    rcases List.mem_cons.mp ht with h | h
    · subst h
      apply classify_foldl_video_encode
      unfold classifyStep
      simp [hv, he]
    · exact ih _ ⟨t, h, hv, he⟩

/-- C6: a non-compliant video track anywhere in the track list forces the
file-level video action to `encode` (unknown/zero bitrate, bitrate over the
maximum, over-sized dimensions, wrong codec, or right codec with wrong
profile, exactly the disjuncts of `videoNeedsEncode`); and if every video
track is compliant and every audio track is compliant, both actions are
`copy`. -/
theorem C6_classifier_monotone (P : Policy) (ts : List Track) :
    (∀ t ∈ ts, t.track_type = "Video" → videoNeedsEncode P t = true →
      (classify P ts).1 = StreamAction.encode) ∧
    ((∀ t ∈ ts, (t.track_type = "Video" → videoNeedsEncode P t = false) ∧
        (t.track_type = "Audio" → audioNeedsEncode P t = false)) →
      classify P ts = (StreamAction.copy, StreamAction.copy)) := by
  constructor
  · intro t ht hv he
    exact classify_foldl_bad_video P ts _ ⟨t, ht, hv, he⟩
  · intro hall
    unfold classify
    induction ts with
    | nil => rfl
    | cons t ts ih =>
      rw [List.foldl_cons]
      rw [classifyStep_compliant P _ t (fun h => ((hall t (by simp)).1 h))
        (fun h => ((hall t (by simp)).2 h))]
      exact ih (fun u hu => hall u (by simp [hu]))

/-- Witness for C6: a list with one non-compliant video track (unknown
bitrate) between compliant tracks classifies as `encode`; an all-compliant
list classifies as `copy`/`copy`. -/
theorem C6_classifier_monotone_witness :
    ((⟨"Video", "AVC", "High", none, 1920, 1080, 0⟩ : Track) ∈
        [(⟨"Video", "AVC", "Main@L4", some 4000000, 1920, 1080, 0⟩ : Track),
         ⟨"Video", "AVC", "High", none, 1920, 1080, 0⟩,
         ⟨"Audio", "AAC", "LC", some 192000, 0, 0, 2⟩] ∧
      videoNeedsEncode mc2Policy ⟨"Video", "AVC", "High", none, 1920, 1080, 0⟩ = true) ∧
    (classify mc2Policy
        [⟨"Video", "AVC", "Main@L4", some 4000000, 1920, 1080, 0⟩,
         ⟨"Video", "AVC", "High", none, 1920, 1080, 0⟩,
         ⟨"Audio", "AAC", "LC", some 192000, 0, 0, 2⟩]).1 = StreamAction.encode ∧
    classify mc2Policy
        [⟨"Video", "AVC", "Main@L4", some 4000000, 1920, 1080, 0⟩,
         ⟨"Audio", "AAC", "LC", some 192000, 0, 0, 2⟩] =
      (StreamAction.copy, StreamAction.copy) := by
  refine ⟨⟨by decide, by decide⟩, ?_, ?_⟩
  · exact (C6_classifier_monotone mc2Policy _).1
      ⟨"Video", "AVC", "High", none, 1920, 1080, 0⟩ (by decide) (by decide) (by decide)
  · exact (C6_classifier_monotone mc2Policy _).2 (by decide)

/-- C5 counterexample: a file the inspection tool cannot parse at all (no
parseable tracks) keeps the initial `copy`/`copy` commands — the actions do
NOT default to `encode`. -/
theorem C5_unparseable_copy_counterexample :
    deriveActions mc2Policy false [] = (StreamAction.copy, StreamAction.copy) ∧
    StreamAction.copy ≠ StreamAction.encode := by
  exact ⟨by decide, by decide⟩

/-- C5 (amended): a file the inspection tool cannot parse is still processed
— it still yields exactly one encoder invocation in the conversion loop —
but its video and audio actions stay at the initialized `copy` defaults
(stream passthrough/remux), not `encode`. -/
theorem C5_unparseable_still_processed (P : Policy) (name : String) (ts : List Track)
    (files : List (String × Bool × List Track)) :
    deriveActions P false ts = (StreamAction.copy, StreamAction.copy) ∧
    deriveActions P true [] = (StreamAction.copy, StreamAction.copy) ∧
    mc2Invocations P ((name, false, ts) :: files) =
      (name, (StreamAction.copy, StreamAction.copy)) :: mc2Invocations P files := by
  refine ⟨rfl, rfl, ?_⟩
  simp [mc2Invocations, deriveActions]

/-!
## HDR software-tonemap fallback (`media_convert_4.py`, lines 337-351)

After `r1, log1 = _run(p1, work_dir)`, a non-zero `r1` whose captured output
contains the diagnostic rebuilds the commands with `sw_tonemap=True` and
reruns pass 1 exactly once (straight-line code, no loop); a second failure
records an `error` row and `continue`s to the next file.
-/

/-- The diagnostic substring that triggers the fallback
(`"No mastering display data" in log1`). -/
def masteringDiag : String := "No mastering display data"

/-- Arguments of a `db_upsert` call of `media_convert_4.py`. -/
structure Upsert where
  path : String
  size : Int
  mtime : Int
  status : String
  note : String
deriving DecidableEq

/-- Result of the pass-1 stage for one file: how many times the
software-tonemap fallback pass was run, the `db_upsert` calls made, and
whether control reaches pass 2 (`toPass2 = false` means `continue`, i.e.
the loop moves to the next file). -/
structure Pass1Outcome where
  fallbackRuns : Nat
  upserts : List Upsert
  toPass2 : Bool
deriving DecidableEq

/-- The pass-1 control flow of `media_convert_4.py` lines 337-351, with the
exit codes of the hardware attempt (`r1`), its captured output (`log1`) and
the exit code the software-fallback attempt would return (`rFallback`) as
oracles. -/
def pass1Flow (in_path : String) (size mtime : Int) (r1 : Int) (log1 : String)
    (rFallback : Int) : Pass1Outcome :=
  if r1 ≠ 0 then
    if pyContains log1 masteringDiag then
      if rFallback ≠ 0 then
        ⟨1, [⟨in_path, size, mtime, "error", "pass1 exit " ++ toString rFallback⟩], false⟩
      else ⟨1, [], true⟩
    else ⟨0, [⟨in_path, size, mtime, "error", "pass1 exit " ++ toString r1⟩], false⟩
  else ⟨0, [], true⟩

/-- C4: the software-tonemap fallback runs exactly once when pass 1 fails
with the missing-mastering-data diagnostic in its captured output, and never
otherwise — in particular never twice; if that single fallback attempt also
fails, the file is recorded with status `error` and control continues with
the next file (`toPass2 = false`, no retry). -/
theorem C4_fallback_exactly_once (in_path : String) (size mtime : Int) (r1 : Int)
    (log1 : String) (rFallback : Int) :
    (pass1Flow in_path size mtime r1 log1 rFallback).fallbackRuns =
      (if r1 ≠ 0 ∧ pyContains log1 masteringDiag = true then 1 else 0) ∧
    (pass1Flow in_path size mtime r1 log1 rFallback).fallbackRuns ≤ 1 ∧
    (r1 ≠ 0 → pyContains log1 masteringDiag = true → rFallback ≠ 0 →
      pass1Flow in_path size mtime r1 log1 rFallback =
        ⟨1, [⟨in_path, size, mtime, "error", "pass1 exit " ++ toString rFallback⟩], false⟩) := by
  unfold pass1Flow
  by_cases h1 : r1 ≠ 0
  · by_cases h2 : pyContains log1 masteringDiag = true
    · by_cases h3 : rFallback ≠ 0
      · refine ⟨by simp [h1, h2, h3], by simp [h1, h2, h3], fun _ _ _ => by simp [h1, h2, h3]⟩
      · refine ⟨by simp [h1, h2, h3], by simp [h1, h2, h3], fun _ _ hc => absurd hc h3⟩
    · refine ⟨by simp [h1, h2], by simp [h1, h2], fun _ hc _ => absurd hc h2⟩
  · refine ⟨by simp [h1], by simp [h1], fun hc _ _ => absurd hc h1⟩

/-- Witness for C4: a failing pass 1 whose output is the diagnostic itself,
followed by a failing fallback, runs the fallback once, records `error` and
moves on. -/
theorem C4_fallback_exactly_once_witness :
    ((1 : Int) ≠ 0 ∧ pyContains masteringDiag masteringDiag = true) ∧
    pass1Flow "/m/b.mkv" 9 50 1 masteringDiag 1 =
      ⟨1, [⟨"/m/b.mkv", 9, 50, "error", "pass1 exit 1"⟩], false⟩ := by
  refine ⟨⟨by decide, by decide⟩, ?_⟩
  have h := (C4_fallback_exactly_once "/m/b.mkv" 9 50 1 masteringDiag 1).2.2
    (by decide) (by decide) (by decide)
  exact h.trans (by decide)

/-!
## Output naming and the atime/mtime idempotence trick
(`media_convert_2.py` `needs_convert`/`to_mp4_naming` lines 114-137 and the
`os.utime` bump at lines 252-253; `media_convert_3.py` has the identical
functions and bump at lines 156-179 and 391-392; `media_convert_4.py` has
the same naming function as `to_target_naming`, lines 131-134.)
-/

/-- `valid_extensions` of `media_convert_2.py` / `media_convert_3.py`. -/
def valid_extensions : List String := ["rmvb", "mkv", "avi", "mov", "wmv"]

/-- Python's `str.split(sep)` for a one-character separator, on character
lists.  Always returns a non-empty list of parts. -/
def splitOnChar (c : Char) : List Char → List (List Char)
  | [] => [[]]
  | x :: xs =>
    if x = c then [] :: splitOnChar c xs
    else
      match splitOnChar c xs with
      | [] => [[x]]
      | p :: ps => (x :: p) :: ps

/-- Python's `sep.join(parts)`. -/
def joinWith (sep : List Char) : List (List Char) → List Char
  | [] => []
  | [p] => p
  | p :: ps => p ++ sep ++ joinWith sep ps

/-- `parts[len(parts)-1] = v` on a non-empty parts list. -/
def setLastPart (parts : List (List Char)) (v : List Char) : List (List Char) :=
  parts.dropLast ++ [v]

/-- `to_target_naming` of `media_convert_4.py` (lines 131-134), parametrised
by the module constant `EXT`:
`parts = filename.split('.'); parts[-1] = EXT; return '.'.join(parts)`. -/
def to_target_naming (EXT : String) (filename : String) : String :=
  ⟨joinWith [ '.'] (setLastPart (splitOnChar '.' filename.toList) EXT.toList)⟩

/-- `to_mp4_naming` of `media_convert_2.py` / `media_convert_3.py`
(`EXT = 'mp4'`). -/
def to_mp4_naming (filename : String) : String := to_target_naming "mp4" filename

/-- `needs_convert` of `media_convert_2.py` (lines 114-126), parametrised by
the module constant `EXT`: any name ending in a convertible extension is
selected; a name ending in `EXT` is selected unless `st_mtime > st_atime`;
everything else is ignored. -/
def needs_convert (EXT : String) (name : String) (mtime atime : Int) : Bool :=
  if valid_extensions.any (fun e => pyEndswith name e) then true
  else if pyEndswith name EXT then
    if mtime > atime then false else true
  else false

/-- The `os.utime(cur_file, (st_atime, st_mtime + 157680000))` bump applied
after every successful conversion (five years in seconds; atime is left
unchanged). -/
def bumpMtime (mtime : Int) : Int := mtime + 157680000

theorem splitOnChar_ne_nil (c : Char) (l : List Char) : splitOnChar c l ≠ [] := by
  cases l with
  | nil => simp [splitOnChar]
  | cons x xs =>
    unfold splitOnChar
    by_cases h : x = c
    · simp [h]
    · simp only [h, if_false]
      cases hs : splitOnChar c xs <;> simp

theorem splitOnChar_not_mem (c : Char) (l : List Char) (h : c ∉ l) :
    splitOnChar c l = [l] := by
  induction l with
  | nil => rfl
  | cons x xs ih =>
    have hx : ¬x = c := fun he => h (by simp [he])
    have hxs : c ∉ xs := fun hm => h (by simp [hm])
    unfold splitOnChar
    rw [if_neg hx, ih hxs]

theorem splitOnChar_cons (c x : Char) (xs : List Char) :
    splitOnChar c (x :: xs) =
      if x = c then [] :: splitOnChar c xs
      else match splitOnChar c xs with
        | [] => [[x]]
        | p :: ps => (x :: p) :: ps := rfl

theorem splitOnChar_append (c : Char) (xs ys : List Char) :
    splitOnChar c (xs ++ c :: ys) = splitOnChar c xs ++ splitOnChar c ys := by
  induction xs with
  | nil => simp [splitOnChar]
  | cons x xs ih =>
    rw [List.cons_append, splitOnChar_cons, splitOnChar_cons]
    by_cases h : x = c
    · rw [if_pos h, if_pos h, ih, List.cons_append]
    · rw [if_neg h, if_neg h, ih]
      obtain ⟨p, ps, hps⟩ : ∃ p ps, splitOnChar c xs = p :: ps := by
        cases hs : splitOnChar c xs with
        | nil => exact absurd hs (splitOnChar_ne_nil c xs)
        | cons p ps => exact ⟨p, ps, rfl⟩
      rw [hps]
      simp

theorem joinWith_cons_head (sep : List Char) (x : Char) (p : List Char)
    (ps : List (List Char)) :
    joinWith sep ((x :: p) :: ps) = x :: joinWith sep (p :: ps) := by
  cases ps with
  | nil => rfl
  | cons q qs => rfl

theorem joinWith_splitOnChar (c : Char) (l : List Char) :
    joinWith [c] (splitOnChar c l) = l := by
  induction l with
  | nil => rfl
  | cons x xs ih =>
    unfold splitOnChar
    by_cases h : x = c
    · subst h
      rw [if_pos rfl]
      obtain ⟨p, ps, hps⟩ : ∃ p ps, splitOnChar x xs = p :: ps := by
        cases hs : splitOnChar x xs with
        | nil => exact absurd hs (splitOnChar_ne_nil x xs)
        | cons p ps => exact ⟨p, ps, rfl⟩
      rw [hps]
      show [] ++ [x] ++ joinWith [x] (p :: ps) = x :: xs
      rw [← hps, ih]
      rfl
    · rw [if_neg h]
      obtain ⟨p, ps, hps⟩ : ∃ p ps, splitOnChar c xs = p :: ps := by
        cases hs : splitOnChar c xs with
        | nil => exact absurd hs (splitOnChar_ne_nil c xs)
        | cons p ps => exact ⟨p, ps, rfl⟩
      rw [hps, joinWith_cons_head, ← hps, ih]

theorem joinWith_snoc (sep : List Char) (A : List (List Char)) (x : List Char)
    (h : A ≠ []) :
    joinWith sep (A ++ [x]) = joinWith sep A ++ sep ++ x := by
  induction A with
  | nil => exact absurd rfl h
  | cons p ps ih =>
    cases ps with
    | nil => rfl
    | cons q qs =>
      show joinWith sep (p :: ((q :: qs) ++ [x])) = (p ++ sep ++ joinWith sep (q :: qs)) ++ sep ++ x
      have h2 : (q :: qs) ++ [x] = q :: (qs ++ [x]) := rfl
      rw [h2]
      show p ++ sep ++ joinWith sep (q :: (qs ++ [x])) = (p ++ sep ++ joinWith sep (q :: qs)) ++ sep ++ x
      rw [show q :: (qs ++ [x]) = (q :: qs) ++ [x] from rfl, ih (by simp)]
      simp [List.append_assoc]

/-- C10: the output-naming function replaces only the substring after the
last `'.'` of its argument with the configured extension; an argument with
no `'.'` at all becomes the bare extension string, the original name being
discarded; `to_mp4_naming` is the same function with `EXT = "mp4"`. -/
theorem C10_to_target_naming_spec (EXT : String) :
    (∀ pre suf : List Char, '.' ∉ suf →
      to_target_naming EXT ⟨pre ++ '.' :: suf⟩ = ⟨pre ++ '.' :: EXT.toList⟩) ∧
    (∀ f : String, '.' ∉ f.toList → to_target_naming EXT f = EXT) ∧
    (∀ f : String, to_mp4_naming f = to_target_naming "mp4" f) := by
  refine ⟨?_, ?_, fun f => rfl⟩
  · intro pre suf hsuf
    unfold to_target_naming
    have htl : (String.mk (pre ++ '.' :: suf)).toList = pre ++ '.' :: suf := rfl
    rw [htl, splitOnChar_append, splitOnChar_not_mem _ _ hsuf]
    unfold setLastPart
    rw [List.dropLast_concat, joinWith_snoc _ _ _ (splitOnChar_ne_nil _ _),
      joinWith_splitOnChar]
    show String.mk ((pre ++ [ '.']) ++ EXT.toList) = String.mk (pre ++ '.' :: EXT.toList)
    rw [List.append_assoc]
    rfl
  · intro f hf
    unfold to_target_naming
    rw [splitOnChar_not_mem _ _ hf]
    unfold setLastPart
    show String.mk (joinWith [ '.'] [EXT.toList]) = EXT
    rfl

/-- Witness for C10: `movie.avi` becomes `movie.mkv`; a dot-free name
becomes just `mkv`. -/
theorem C10_to_target_naming_spec_witness :
    to_target_naming "mkv" ⟨"movie".toList ++ '.' :: "avi".toList⟩ =
      ⟨"movie".toList ++ '.' :: "mkv".toList⟩ ∧
    to_target_naming "mkv" "clip" = "mkv" := by
  exact ⟨(C10_to_target_naming_spec "mkv").1 ("movie".toList) ("avi".toList) (by decide),
    (C10_to_target_naming_spec "mkv").2.1 "clip" (by decide)⟩

theorem pyEndswith_getLast (s p : String) (h : pyEndswith s p = true)
    (hp : p.toList ≠ []) : s.toList.getLast? = p.toList.getLast? := by
  unfold pyEndswith at h
  obtain ⟨t, ht⟩ : p.toList <:+ s.toList := of_decide_eq_true h
  rw [← ht]
  exact List.getLast?_append_of_ne_nil t hp

theorem pyEndswith_last_ne (s p q : String) (hp : pyEndswith s p = true)
    (hpn : p.toList ≠ []) (hqn : q.toList ≠ [])
    (hne : p.toList.getLast? ≠ q.toList.getLast?) :
    pyEndswith s q = false := by
  cases hb : pyEndswith s q with
  | false => rfl
  | true =>
    exact absurd ((pyEndswith_getLast s p hp hpn).symm.trans
      (pyEndswith_getLast s q hb hqn)) hne

/-- A name ending in `"mp4"` (last character `'4'`) cannot also end in any
of the convertible extensions (last characters `'b'`, `'v'`, `'i'`), so the
extension loop of `needs_convert` never fires for it. -/
theorem mp4_not_valid_ext (name : String) (h : pyEndswith name "mp4" = true) :
    valid_extensions.any (fun e => pyEndswith name e) = false := by
  have r1 := pyEndswith_last_ne name "mp4" "rmvb" h (by decide) (by decide) (by decide)
  have r2 := pyEndswith_last_ne name "mp4" "mkv" h (by decide) (by decide) (by decide)
  have r3 := pyEndswith_last_ne name "mp4" "avi" h (by decide) (by decide) (by decide)
  have r4 := pyEndswith_last_ne name "mp4" "mov" h (by decide) (by decide) (by decide)
  have r5 := pyEndswith_last_ne name "mp4" "wmv" h (by decide) (by decide) (by decide)
  simp [valid_extensions, r1, r2, r3, r4, r5]

/-- C9: for the two variants without a tracking store (`EXT = 'mp4'`), a
file whose name ends in the target extension is selected for recoding
exactly when its mtime is not greater than its atime; the post-conversion
`os.utime` call sets mtime to the current mtime plus `157680000` seconds
while keeping atime, after which (atime being less than the bumped mtime)
the file is no longer selected on any later run. -/
theorem C9_timestamp_trick (name : String) (mtime atime : Int)
    (hExt : pyEndswith name "mp4" = true) :
    (needs_convert "mp4" name mtime atime = true ↔ mtime ≤ atime) ∧
    bumpMtime mtime = mtime + 157680000 ∧
    (atime < bumpMtime mtime → needs_convert "mp4" name (bumpMtime mtime) atime = false) := by
  have hv := mp4_not_valid_ext name hExt
  refine ⟨?_, rfl, ?_⟩
  · unfold needs_convert
    rw [hv, hExt]
    by_cases hmt : mtime > atime
    · simp only [hmt]
      simp
      omega
    · simp only [hmt]
      simp
      omega
  · intro hlt
    unfold needs_convert
    rw [hv, hExt]
    have hgt : bumpMtime mtime > atime := hlt
    simp [hgt]

/-- Witness for C9: `a.mp4` with equal mtime and atime is selected; after
the five-year bump it is ignored. -/
theorem C9_timestamp_trick_witness :
    (pyEndswith "a.mp4" "mp4" = true ∧ (100 : Int) < bumpMtime 100) ∧
    needs_convert "mp4" "a.mp4" 100 100 = true ∧
    needs_convert "mp4" "a.mp4" (bumpMtime 100) 100 = false := by
  refine ⟨⟨by decide, by decide⟩, ?_, ?_⟩
  · exact (C9_timestamp_trick "a.mp4" 100 100 (by decide)).1.mpr (by decide)
  · exact (C9_timestamp_trick "a.mp4" 100 100 (by decide)).2.2 (by decide)

/-!
## Remote-backend connection setup (`media_convert_3.py`, lines 241-263)

The three setup steps each sit in their own `try` block that sets
`ssh_enabled = False` on failure, but the later blocks still run: if
`ssh_client.connect` fails (or `open_sftp` fails), the name `sftp_client`
is never bound, and the third block's `sftp_client.chdir(ssh_folder)`
raises `NameError` — which its `except IOError` clause does not catch, so
the whole script dies with an unhandled exception before any file is
processed.  Only a failing `chdir` (an `IOError`) is handled gracefully.
-/

/-- Outcome of the SSH/SFTP setup block: either the script crashed with an
unhandled exception (aborting the whole run) or setup finished with the
given value of `ssh_enabled` (`false` = local-only fallback). -/
inductive SetupOutcome where
  | crashed
  | finished (ssh_enabled : Bool)
deriving DecidableEq

/-- The setup block of `media_convert_3.py` lines 241-263 with the three
step results as oracles.  `open_sftp` can only succeed on a connected
client, so `sftp_client` ends up bound iff `connectOk && sftpOpenOk`; the
`chdir` call on an unbound name is the uncaught `NameError`. -/
def sshSetup (connectOk sftpOpenOk chdirOk : Bool) : SetupOutcome :=
  let enabledAfterConnect := connectOk
  let sftpClientBound := connectOk && sftpOpenOk
  let enabledAfterSftp := enabledAfterConnect && sftpClientBound
  if sftpClientBound = false then SetupOutcome.crashed
  else if chdirOk = false then SetupOutcome.finished false
  else SetupOutcome.finished enabledAfterSftp

/-- C8 (code evaluation at the failing inputs): a failing SSH connect or a
failing SFTP-session open crashes the run with an unhandled `NameError`
instead of disabling the remote path; only a failing remote-folder change
is disabled gracefully (run continues with local encoding). -/
theorem C8_setup_failure_crashes :
    sshSetup false true true = SetupOutcome.crashed ∧
    sshSetup false false true = SetupOutcome.crashed ∧
    sshSetup true false true = SetupOutcome.crashed ∧
    sshSetup true true false = SetupOutcome.finished false ∧
    sshSetup true true true = SetupOutcome.finished true := by
  exact ⟨by decide, by decide, by decide, by decide, by decide⟩

/-!
## Atomic replacement (`media_convert_4.py`, lines 356-391)

On pass-2 success the original is moved to a collision-free `.old` backup
name, the temp output is moved to the destination name, the backup is
deleted when `DELETE` is set (a failed deletion is only logged), the
destination is stat-ed and a fresh `ok` row is upserted for the destination
path.  A throwing move is caught, counts `failed += 1` and `continue`s
(`main` of this variant contains no abort path at all — every per-file
exception is caught).
-/

/-- Contents-and-stat of one file on disk: `id` identifies the byte
content, `size`/`mtime` are what `os.stat` (`file_signature`) reports. -/
structure FData where
  id : Nat
  size : Int
  mtime : Int
deriving DecidableEq

/-- A directory tree as an association list from normalized paths to file
data (first match wins). -/
abbrev FS := List (String × FData)

/-- What the path `p` currently holds. -/
def fsFind (fs : FS) (p : String) : Option FData :=
  (fs.find? (fun e => e.1 == p)).map Prod.snd

/-- `os.path.isfile(p)`. -/
def fsHas (fs : FS) (p : String) : Bool := (fsFind fs p).isSome

/-- `os.remove(p)`. -/
def fsRemove : FS → String → FS
  | [], _ => []
  | e :: fs, p => if e.1 = p then fsRemove fs p else e :: fsRemove fs p

/-- A successful `shutil.move(src, dst)`: the data at `src` now sits at
`dst` (an existing `dst` is overwritten); no-op when `src` is absent. -/
def fsMove (fs : FS) (src dst : String) : FS :=
  match fsFind fs src with
  | some d => (dst, d) :: fsRemove (fsRemove fs src) dst
  | none => fs

theorem fsFind_cons (e : String × FData) (fs : FS) (p : String) :
    fsFind (e :: fs) p = if e.1 = p then some e.2 else fsFind fs p := by
  by_cases h : e.1 = p
  · simp [fsFind, List.find?_cons, h]
  · simp [fsFind, List.find?_cons, h]

theorem fsFind_remove_ne (fs : FS) (p q : String) (h : p ≠ q) :
    fsFind (fsRemove fs q) p = fsFind fs p := by
  induction fs with
  | nil => rfl
  | cons e fs ih =>
    unfold fsRemove
    by_cases he : e.1 = q
    · rw [if_pos he, ih, fsFind_cons]
      have hne : ¬ e.1 = p := by rw [he]; exact fun hqp => h hqp.symm
      rw [if_neg hne]
    · rw [if_neg he, fsFind_cons, fsFind_cons]
      by_cases hp : e.1 = p
      · rw [if_pos hp, if_pos hp]
      · rw [if_neg hp, if_neg hp, ih]

theorem fsFind_remove_self (fs : FS) (q : String) :
    fsFind (fsRemove fs q) q = none := by
  induction fs with
  | nil => rfl
  | cons e fs ih =>
    unfold fsRemove
    by_cases he : e.1 = q
    · rw [if_pos he, ih]
    · rw [if_neg he, fsFind_cons, if_neg he, ih]

theorem fsMove_find_dst (fs : FS) (src dst : String) (d : FData)
    (h : fsFind fs src = some d) :
    fsFind (fsMove fs src dst) dst = some d := by
  unfold fsMove
  rw [h, fsFind_cons, if_pos rfl]

theorem fsMove_find_other (fs : FS) (src dst p : String)
    (hs : p ≠ src) (hd : p ≠ dst) :
    fsFind (fsMove fs src dst) p = fsFind fs p := by
  unfold fsMove
  cases h : fsFind fs src with
  | none => rfl
  | some d =>
    rw [fsFind_cons, if_neg (fun hc => hd hc.symm),
      fsFind_remove_ne _ _ _ hd, fsFind_remove_ne _ _ _ hs]

/-- The `in_path_original = in_path + ".old"; while isfile: += ".old"` loop
of lines 357-359, with explicit fuel. -/
def backupName (fs : FS) : Nat → String → String
  | 0, p => p
  | n + 1, p => if fsHas fs p then backupName fs n (p ++ ".old") else p

/-- The collision-free backup name: `fs.length + 1` fuel always suffices
(each candidate is strictly longer than the previous one). -/
def freshBackup (fs : FS) (in_path : String) : String :=
  backupName fs (fs.length + 1) (in_path ++ ".old")

theorem length_filter_mono {α : Type} (l : List α) (q r : α → Bool)
    (himp : ∀ x, q x = true → r x = true) :
    (l.filter q).length ≤ (l.filter r).length := by
  induction l with
  | nil => exact Nat.le_refl 0
  | cons a l ih =>
    rw [List.filter_cons, List.filter_cons]
    cases hq : q a with
    | true =>
      rw [himp a hq]
      simpa using ih
    | false =>
      cases hr : r a with
      | true => simp only [cond_true, cond_false]; exact Nat.le_succ_of_le ih
      | false => simpa using ih

theorem length_filter_lt_of_witness {α : Type} (l : List α) (q r : α → Bool)
    (himp : ∀ x, q x = true → r x = true) (x : α) (hx : x ∈ l)
    (hrx : r x = true) (hqx : q x = false) :
    (l.filter q).length < (l.filter r).length := by
  induction l with
  | nil => cases hx
  | cons a l ih =>
    rw [List.filter_cons, List.filter_cons]
    rcases List.mem_cons.mp hx with h | h
    · subst h
      rw [hrx, hqx]
      simp only [cond_true, cond_false]
      exact Nat.lt_succ_of_le (length_filter_mono l q r himp)
    · cases hq : q a with
      | true =>
        rw [himp a hq]
        simpa using ih h
      | false =>
        cases hr : r a with
        | true => simp only [cond_true, cond_false]; exact Nat.lt_succ_of_lt (ih h)
        | false => simpa using ih h

/-- Number of entries whose key is at least as long as `p`; the while
loop's termination measure. -/
def longKeys (fs : FS) (p : String) : Nat :=
  (fs.filter (fun e => p.length ≤ e.1.length)).length

theorem backupName_fresh (fs : FS) :
    ∀ fuel p, longKeys fs p < fuel → fsHas fs (backupName fs fuel p) = false := by
  intro fuel
  induction fuel with
  | zero => intro p h; exact absurd h (Nat.not_lt_zero _)
  | succ n ih =>
    intro p h
    unfold backupName
    cases hb : fsHas fs p with
    | false => simp [hb]
    | true =>
      simp only [hb, if_true]
      apply ih
      obtain ⟨e, he, hep⟩ : ∃ e ∈ fs, e.1 = p := by
        unfold fsHas fsFind at hb
        cases hf : fs.find? (fun e => e.1 == p) with
        | none => rw [hf] at hb; simp at hb
        | some e =>
          refine ⟨e, List.mem_of_find?_eq_some hf, ?_⟩
          have := List.find?_some hf
          simpa using this
      have hlt : longKeys fs (p ++ ".old") < longKeys fs p := by
        apply length_filter_lt_of_witness fs _ _ ?_ e he ?_ ?_
        · intro x hx
          have h1 : (p ++ ".old").length ≤ x.1.length := by simpa using hx
          have h4 : (".old" : String).length = 4 := by decide
          have h2 : (p ++ ".old").length = p.length + 4 := by
            rw [String.length_append, h4]
          simp only [decide_eq_true_eq]
          omega
        · simp [hep]
        · have h4 : (".old" : String).length = 4 := by decide
          have h2 : (p ++ ".old").length = p.length + 4 := by
            rw [String.length_append, h4]
          simp only [decide_eq_false_iff_not, hep]
          omega
      unfold longKeys at h hlt ⊢
      omega

theorem freshBackup_fresh (fs : FS) (p : String) :
    fsHas fs (freshBackup fs p) = false := by
  apply backupName_fresh
  have := List.length_filter_le (fun e : String × FData =>
    decide ((p ++ ".old").length ≤ e.1.length)) fs
  unfold longKeys
  omega

theorem pyEndswith_append (p s : String) : pyEndswith (p ++ s) s = true := by
  unfold pyEndswith
  apply decide_eq_true
  exact ⟨p.toList, (String.data_append p s).symm⟩

theorem backupName_ends_old (fs : FS) :
    ∀ fuel p, pyEndswith p ".old" = true →
      pyEndswith (backupName fs fuel p) ".old" = true := by
  intro fuel
  induction fuel with
  | zero => intro p h; exact h
  | succ n ih =>
    intro p h
    unfold backupName
    cases hb : fsHas fs p with
    | false => simp only [hb, Bool.false_eq_true, if_false]; exact h
    | true =>
      simp only [hb, if_true]
      exact ih (p ++ ".old") (pyEndswith_append p ".old")

theorem freshBackup_ends_old (fs : FS) (p : String) :
    pyEndswith (freshBackup fs p) ".old" = true :=
  backupName_ends_old fs _ _ (pyEndswith_append p ".old")

theorem joinWith_snoc_suffix (sep x : List Char) (A : List (List Char)) :
    x <:+ joinWith sep (A ++ [x]) := by
  cases A with
  | nil => exact List.suffix_refl x
  | cons p ps =>
    rw [joinWith_snoc sep (p :: ps) x (by simp)]
    exact List.suffix_append _ x

theorem to_target_naming_endswith (EXT f : String) :
    pyEndswith (to_target_naming EXT f) EXT = true := by
  unfold pyEndswith to_target_naming setLastPart
  apply decide_eq_true
  exact joinWith_snoc_suffix [ '.'] EXT.toList ((splitOnChar '.' f.toList).dropLast)

theorem pyEndswith_ne_of_last (a b p q : String) (ha : pyEndswith a p = true)
    (hb : pyEndswith b q = true) (hpn : p.toList ≠ []) (hqn : q.toList ≠ [])
    (hne : p.toList.getLast? ≠ q.toList.getLast?) : a ≠ b := by
  intro he
  subst he
  exact hne ((pyEndswith_getLast a p ha hpn).symm.trans (pyEndswith_getLast a q hb hqn))

/-- Per-file outcome of the replacement phase: counted as processed, or
counted as `failed += 1` with `continue` (never a run abort — `main` of
`media_convert_4.py` catches every per-file exception). -/
inductive FileOutcome where
  | done
  | failed
deriving DecidableEq

/-- Result of the replacement phase: the final directory tree, the per-file
outcome, the `db_upsert` calls made, and the sequence of intermediate
directory-tree states (for the no-data-loss invariant). -/
structure ReplaceResult where
  fs : FS
  outcome : FileOutcome
  upserts : List Upsert
  trace : List FS
deriving DecidableEq

/-- Lines 356-391 of `media_convert_4.py` (the `r2 == 0` branch), with the
success of the two `shutil.move` calls and of the `os.remove` of the backup
as oracles: compute the collision-free backup name; move the original to
it (a throw counts the file failed and continues); move the temp output to
the destination (a throw counts the file failed and continues, the backup
stays); if `DELETE`, try to remove the backup (a throw is only logged);
stat the destination and upsert a fresh `ok` row for the destination
path. -/
def replaceStep (fs : FS) (in_path temp out : String)
    (mv1Ok mv2Ok delOk deleteFlag : Bool) : ReplaceResult :=
  let backup := freshBackup fs in_path
  if mv1Ok = false then ⟨fs, FileOutcome.failed, [], [fs]⟩
  else
    let fs1 := fsMove fs in_path backup
    if mv2Ok = false then ⟨fs1, FileOutcome.failed, [], [fs, fs1]⟩
    else
      let fs2 := fsMove fs1 temp out
      let fs3 := if deleteFlag then (if delOk then fsRemove fs2 backup else fs2) else fs2
      match fsFind fs3 out with
      | some d =>
        ⟨fs3, FileOutcome.done, [⟨out, d.size, d.mtime, "ok", "encoded-av1"⟩], [fs, fs1, fs2, fs3]⟩
      | none => ⟨fs3, FileOutcome.failed, [], [fs, fs1, fs2, fs3]⟩

/-- Behaviour of the replacement phase when the source holds `O` and the
temp file holds `E`: a failed destination move leaves the backup (holding
`O`) on disk, counts the file failed and writes no row; a fully successful
replacement upserts exactly one `ok` row, for the destination path with the
destination's data; and every intermediate state still holds `O` or `E`
somewhere. -/
theorem replaceStep_spec (fs : FS) (O E : FData) (in_path temp out : String)
    (mv1Ok mv2Ok delOk deleteFlag : Bool)
    (hin : fsFind fs in_path = some O) (htmp : fsFind fs temp = some E)
    (hne : in_path ≠ temp) (hBout : freshBackup fs in_path ≠ out) :
    (mv1Ok = true → mv2Ok = false →
      (replaceStep fs in_path temp out mv1Ok mv2Ok delOk deleteFlag).outcome = FileOutcome.failed ∧
      fsFind (replaceStep fs in_path temp out mv1Ok mv2Ok delOk deleteFlag).fs
        (freshBackup fs in_path) = some O ∧
      (replaceStep fs in_path temp out mv1Ok mv2Ok delOk deleteFlag).upserts = []) ∧
    (mv1Ok = true → mv2Ok = true →
      (replaceStep fs in_path temp out mv1Ok mv2Ok delOk deleteFlag).upserts =
        [⟨out, E.size, E.mtime, "ok", "encoded-av1"⟩] ∧
      fsFind (replaceStep fs in_path temp out mv1Ok mv2Ok delOk deleteFlag).fs out = some E ∧
      (replaceStep fs in_path temp out mv1Ok mv2Ok delOk deleteFlag).outcome = FileOutcome.done) ∧
    (∀ st ∈ (replaceStep fs in_path temp out mv1Ok mv2Ok delOk deleteFlag).trace,
      (∃ q, fsFind st q = some O) ∨ (∃ q, fsFind st q = some E)) := by
  have hfresh : fsHas fs (freshBackup fs in_path) = false := freshBackup_fresh fs in_path
  have hBin : freshBackup fs in_path ≠ in_path := by
    intro h
    unfold fsHas at hfresh
    rw [h, hin] at hfresh
    simp at hfresh
  have hBtemp : freshBackup fs in_path ≠ temp := by
    intro h
    unfold fsHas at hfresh
    rw [h, htmp] at hfresh
    simp at hfresh
  have h1B : fsFind (fsMove fs in_path (freshBackup fs in_path)) (freshBackup fs in_path)
      = some O := fsMove_find_dst _ _ _ _ hin
  have h1temp : fsFind (fsMove fs in_path (freshBackup fs in_path)) temp = some E := by
    rw [fsMove_find_other _ _ _ _ (Ne.symm hne) (Ne.symm hBtemp)]
    exact htmp
  have h2out : fsFind (fsMove (fsMove fs in_path (freshBackup fs in_path)) temp out) out
      = some E := fsMove_find_dst _ _ _ _ h1temp
  have h2B : fsFind (fsMove (fsMove fs in_path (freshBackup fs in_path)) temp out)
      (freshBackup fs in_path) = some O := by
    rw [fsMove_find_other _ _ _ _ hBtemp hBout]
    exact h1B
  have h3out : fsFind (fsRemove (fsMove (fsMove fs in_path (freshBackup fs in_path)) temp out)
      (freshBackup fs in_path)) out = some E := by
    rw [fsFind_remove_ne _ _ _ (Ne.symm hBout)]
    exact h2out
  refine ⟨?_, ?_, ?_⟩
  · intro hm1 hm2
    subst hm1; subst hm2
    refine ⟨by simp [replaceStep], ?_, by simp [replaceStep]⟩
    simpa [replaceStep] using h1B
  · intro hm1 hm2
    subst hm1; subst hm2
    cases deleteFlag with
    | false =>
      refine ⟨?_, ?_, ?_⟩ <;> simp [replaceStep, h2out]
    | true =>
      cases delOk with
      | false => refine ⟨?_, ?_, ?_⟩ <;> simp [replaceStep, h2out]
      | true => refine ⟨?_, ?_, ?_⟩ <;> simp [replaceStep, h3out]
  · intro st hst
    cases mv1Ok with
    | false =>
      simp [replaceStep] at hst
      subst hst
      exact Or.inl ⟨in_path, hin⟩
    | true =>
      cases mv2Ok with
      | false =>
        simp [replaceStep] at hst
        rcases hst with rfl | rfl
        · exact Or.inl ⟨in_path, hin⟩
        · exact Or.inl ⟨freshBackup fs in_path, h1B⟩
      | true =>
        cases deleteFlag with
        | false =>
          simp [replaceStep, h2out] at hst
          rcases hst with rfl | rfl | rfl
          · exact Or.inl ⟨in_path, hin⟩
          · exact Or.inl ⟨freshBackup fs in_path, h1B⟩
          · exact Or.inr ⟨out, h2out⟩
        | true =>
          cases delOk with
          | false =>
            simp [replaceStep, h2out] at hst
            rcases hst with rfl | rfl | rfl
            · exact Or.inl ⟨in_path, hin⟩
            · exact Or.inl ⟨freshBackup fs in_path, h1B⟩
            · exact Or.inr ⟨out, h2out⟩
          | true =>
            simp [replaceStep, h3out] at hst
            rcases hst with rfl | rfl | rfl | rfl
            · exact Or.inl ⟨in_path, hin⟩
            · exact Or.inl ⟨freshBackup fs in_path, h1B⟩
            · exact Or.inr ⟨out, h2out⟩
            · exact Or.inr ⟨out, h3out⟩

/-- C3: replacement first moves the original to a collision-free backup name
(a name not present on disk), then moves the encoded output to the
destination name; if the destination move throws after the backup move
succeeded, the backup file (still holding the original data) exists in the
resulting tree, the file is counted as a per-file failure (no abort — this
variant's per-file loop catches everything) and no row is written; and
every intermediate state of the replacement still holds the original data
or the encoded data somewhere — they are never both lost. -/
theorem C3_replacement_no_data_loss (fs : FS) (O E : FData) (in_path temp : String)
    (mv1Ok mv2Ok delOk deleteFlag : Bool)
    (hin : fsFind fs in_path = some O) (htmp : fsFind fs temp = some E)
    (hne : in_path ≠ temp) :
    fsHas fs (freshBackup fs in_path) = false ∧
    (mv1Ok = true → mv2Ok = false →
      (replaceStep fs in_path temp (to_target_naming "mkv" in_path)
        mv1Ok mv2Ok delOk deleteFlag).outcome = FileOutcome.failed ∧
      fsFind (replaceStep fs in_path temp (to_target_naming "mkv" in_path)
        mv1Ok mv2Ok delOk deleteFlag).fs (freshBackup fs in_path) = some O ∧
      (replaceStep fs in_path temp (to_target_naming "mkv" in_path)
        mv1Ok mv2Ok delOk deleteFlag).upserts = []) ∧
    (∀ st ∈ (replaceStep fs in_path temp (to_target_naming "mkv" in_path)
        mv1Ok mv2Ok delOk deleteFlag).trace,
      (∃ q, fsFind st q = some O) ∨ (∃ q, fsFind st q = some E)) := by
  have hBout : freshBackup fs in_path ≠ to_target_naming "mkv" in_path :=
    pyEndswith_ne_of_last _ _ ".old" "mkv" (freshBackup_ends_old fs in_path)
      (to_target_naming_endswith "mkv" in_path) (by decide) (by decide) (by decide)
  have h := replaceStep_spec fs O E in_path temp (to_target_naming "mkv" in_path)
    mv1Ok mv2Ok delOk deleteFlag hin htmp hne hBout
  exact ⟨freshBackup_fresh fs in_path, h.1, h.2.2⟩

/-- Witness for C3 at a concrete tree: original at `/v/a.avi`, encoded temp
at `/home/media/temp.mkv`, backup move succeeds, destination move throws:
the run records a per-file failure and the backup still holds the original
data. -/
theorem C3_replacement_no_data_loss_witness :
    (fsFind [("/v/a.avi", (⟨0, 7, 100⟩ : FData)), ("/home/media/temp.mkv", ⟨1, 5, 200⟩)]
        "/v/a.avi" = some ⟨0, 7, 100⟩ ∧
      fsFind [("/v/a.avi", (⟨0, 7, 100⟩ : FData)), ("/home/media/temp.mkv", ⟨1, 5, 200⟩)]
        "/home/media/temp.mkv" = some ⟨1, 5, 200⟩ ∧
      "/v/a.avi" ≠ "/home/media/temp.mkv") ∧
    (replaceStep [("/v/a.avi", (⟨0, 7, 100⟩ : FData)), ("/home/media/temp.mkv", ⟨1, 5, 200⟩)]
      "/v/a.avi" "/home/media/temp.mkv" (to_target_naming "mkv" "/v/a.avi")
      true false true true).outcome = FileOutcome.failed ∧
    fsFind (replaceStep [("/v/a.avi", (⟨0, 7, 100⟩ : FData)), ("/home/media/temp.mkv", ⟨1, 5, 200⟩)]
      "/v/a.avi" "/home/media/temp.mkv" (to_target_naming "mkv" "/v/a.avi")
      true false true true).fs
      (freshBackup [("/v/a.avi", (⟨0, 7, 100⟩ : FData)), ("/home/media/temp.mkv", ⟨1, 5, 200⟩)]
        "/v/a.avi") = some ⟨0, 7, 100⟩ := by
  have h := C3_replacement_no_data_loss
    [("/v/a.avi", (⟨0, 7, 100⟩ : FData)), ("/home/media/temp.mkv", ⟨1, 5, 200⟩)]
    ⟨0, 7, 100⟩ ⟨1, 5, 200⟩ "/v/a.avi" "/home/media/temp.mkv" true false true true
    (by decide) (by decide) (by decide)
  exact ⟨⟨by decide, by decide, by decide⟩, (h.2.1 rfl rfl).1, (h.2.1 rfl rfl).2.1⟩

/-- C7: after a fully successful replacement, exactly one fresh `ok` row is
upserted; its path is the destination path `to_target_naming(in_path)` and
its size/mtime are the destination file's data as found on disk after the
move; and (whenever the destination name differs from the source name) no
row is written for the original source path. -/
theorem C7_success_records_destination (fs : FS) (O E : FData) (in_path temp : String)
    (delOk deleteFlag : Bool)
    (hin : fsFind fs in_path = some O) (htmp : fsFind fs temp = some E)
    (hne : in_path ≠ temp) :
    (replaceStep fs in_path temp (to_target_naming "mkv" in_path)
      true true delOk deleteFlag).upserts =
      [⟨to_target_naming "mkv" in_path, E.size, E.mtime, "ok", "encoded-av1"⟩] ∧
    fsFind (replaceStep fs in_path temp (to_target_naming "mkv" in_path)
      true true delOk deleteFlag).fs (to_target_naming "mkv" in_path) = some E ∧
    (replaceStep fs in_path temp (to_target_naming "mkv" in_path)
      true true delOk deleteFlag).outcome = FileOutcome.done ∧
    (to_target_naming "mkv" in_path ≠ in_path →
      ∀ u ∈ (replaceStep fs in_path temp (to_target_naming "mkv" in_path)
        true true delOk deleteFlag).upserts, u.path ≠ in_path) := by
  have hBout : freshBackup fs in_path ≠ to_target_naming "mkv" in_path :=
    pyEndswith_ne_of_last _ _ ".old" "mkv" (freshBackup_ends_old fs in_path)
      (to_target_naming_endswith "mkv" in_path) (by decide) (by decide) (by decide)
  have h := (replaceStep_spec fs O E in_path temp (to_target_naming "mkv" in_path)
    true true delOk deleteFlag hin htmp hne hBout).2.1 rfl rfl
  refine ⟨h.1, h.2.1, h.2.2, ?_⟩
  intro hoin u hu
  rw [h.1] at hu
  simp at hu
  subst hu
  exact hoin

/-- Witness for C7: encoding `/v/b.avi` upserts the single `ok` row for
`/v/b.mkv` with the destination's size and mtime. -/
theorem C7_success_records_destination_witness :
    (fsFind [("/v/b.avi", (⟨0, 7, 100⟩ : FData)), ("/home/media/temp.mkv", ⟨1, 5, 200⟩)]
        "/v/b.avi" = some ⟨0, 7, 100⟩ ∧
      fsFind [("/v/b.avi", (⟨0, 7, 100⟩ : FData)), ("/home/media/temp.mkv", ⟨1, 5, 200⟩)]
        "/home/media/temp.mkv" = some ⟨1, 5, 200⟩ ∧
      "/v/b.avi" ≠ "/home/media/temp.mkv") ∧
    (replaceStep [("/v/b.avi", (⟨0, 7, 100⟩ : FData)), ("/home/media/temp.mkv", ⟨1, 5, 200⟩)]
      "/v/b.avi" "/home/media/temp.mkv" (to_target_naming "mkv" "/v/b.avi")
      true true true true).upserts =
      [⟨to_target_naming "mkv" "/v/b.avi", 5, 200, "ok", "encoded-av1"⟩] ∧
    (∀ u ∈ (replaceStep [("/v/b.avi", (⟨0, 7, 100⟩ : FData)),
        ("/home/media/temp.mkv", ⟨1, 5, 200⟩)]
      "/v/b.avi" "/home/media/temp.mkv" (to_target_naming "mkv" "/v/b.avi")
      true true true true).upserts, u.path ≠ "/v/b.avi") := by
  have h := C7_success_records_destination
    [("/v/b.avi", (⟨0, 7, 100⟩ : FData)), ("/home/media/temp.mkv", ⟨1, 5, 200⟩)]
    ⟨0, 7, 100⟩ ⟨1, 5, 200⟩ "/v/b.avi" "/home/media/temp.mkv" true true
    (by decide) (by decide) (by decide)
  exact ⟨⟨by decide, by decide, by decide⟩, h.1, h.2.2.2 (by decide)⟩
